import Mathlib

/-!
Shallow embedding of the Mergington High School activities API
(`src/app.py`): a relational store of activities, participants and an
activity↔participant link table, with the seeding routine and the three
data endpoints (list activities, signup, unregister), together with
theorems checking the specification's claims against this embedding.

Strings are compared with Lean's `String` equality (the source compares
Python strings). The relational store is modelled as explicit lists of
rows; surrogate ids are `Nat` counters starting at 1, matching SQLite's
autoincrement ids. An ORM relationship collection
(`activity.participants`) is modelled as the emails reachable through
the link table in row-insertion order.
-/

/-- Lexicographic (code-point) order on character lists: the order used
for `ORDER BY activity.name` on the ASCII activity names. -/
def strLeB : List Char → List Char → Bool
  | [], _ => true
  | _ :: _, [] => false
  | c :: cs, d :: ds =>
    if c.toNat < d.toNat then true
    else if d.toNat < c.toNat then false
    else strLeB cs ds

/-- Lexicographic order on strings, via their character lists. -/
def strLe (a b : String) : Bool := strLeB a.data b.data

/-- Row of table `activity`: surrogate id plus the client-visible fields. -/
structure Activity where
  id : Nat
  name : String
  description : String
  schedule : String
  max_participants : Nat
deriving Repr, DecidableEq

/-- Row of table `participant`: surrogate id and unique email. -/
structure Participant where
  id : Nat
  email : String
deriving Repr, DecidableEq

/-- Row of the link table `activityparticipant`: one membership of a
participant in an activity. -/
structure ActivityParticipant where
  activity_id : Nat
  participant_id : Nat
deriving Repr, DecidableEq

/-- The relational store: the three tables plus the next surrogate id
each table would assign (SQLite ids start at 1). -/
structure Store where
  activities : List Activity
  participants : List Participant
  activity_participants : List ActivityParticipant
  next_activity_id : Nat
  next_participant_id : Nat
deriving Repr, DecidableEq

/-- A fresh database: no rows, ids start at 1. -/
def emptyStore : Store := ⟨[], [], [], 1, 1⟩

/-- `session.exec(select(Activity).where(Activity.name == name)).first()`. -/
def findActivity (s : Store) (name : String) : Option Activity :=
  s.activities.find? (fun a => a.name == name)

/-- `session.exec(select(Participant).where(Participant.email == email)).first()`. -/
def findParticipantByEmail (s : Store) (email : String) : Option Participant :=
  s.participants.find? (fun p => p.email == email)

/-- Resolve a link-table participant id to its `participant` row. -/
def findParticipantById (s : Store) (pid : Nat) : Option Participant :=
  s.participants.find? (fun p => p.id == pid)

/-- The relationship collection `activity.participants`, as emails:
`[participant.email for participant in activity.participants]`, i.e. the
emails reachable from activity `aid` through the link table. -/
def activityParticipantEmails (s : Store) (aid : Nat) : List String :=
  (s.activity_participants.filter (fun m => m.activity_id == aid)).filterMap
    (fun m => (findParticipantById s m.participant_id).map Participant.email)

/-- `fastapi.HTTPException(status_code, detail)`. -/
structure HTTPException where
  status_code : Nat
  detail : String
deriving Repr, DecidableEq

/-- `POST /activities/{activity_name}/signup?email=...`
(`signup_for_activity` in `src/app.py`): 404 if the activity name is
unknown; 400 if the email is already among the activity's participants;
otherwise find or lazily create the participant row, append one link
row, and return the success message (HTTP 200 is the `.ok` case). -/
def signup_for_activity (s : Store) (activity_name : String) (email : String) :
    Except HTTPException (String × Store) :=
  match findActivity s activity_name with
  | none => .error ⟨404, "Activity not found"⟩
  | some activity =>
    if (activityParticipantEmails s activity.id).any (fun pe => pe == email) then
      .error ⟨400, "Student is already signed up"⟩
    else
      match findParticipantByEmail s email with
      | some participant =>
        .ok ("Signed up " ++ email ++ " for " ++ activity_name,
          { s with activity_participants :=
              s.activity_participants ++ [⟨activity.id, participant.id⟩] })
      | none =>
        .ok ("Signed up " ++ email ++ " for " ++ activity_name,
          { s with
            participants := s.participants ++ [⟨s.next_participant_id, email⟩],
            next_participant_id := s.next_participant_id + 1,
            activity_participants :=
              s.activity_participants ++ [⟨activity.id, s.next_participant_id⟩] })

/-- `activity.participants.remove(participant)`: delete the first (under
the store's invariants, the only) matching link row. -/
def removeLink (m : ActivityParticipant) : List ActivityParticipant → List ActivityParticipant
  | [] => []
  | x :: t => if x = m then t else x :: removeLink m t

/-- `DELETE /activities/{activity_name}/unregister?email=...`
(`unregister_from_activity` in `src/app.py`): 404 if the activity name
is unknown; 400 if no participant row has that email or the participant
is not in the activity's collection; otherwise remove the link row and
return the success message. -/
def unregister_from_activity (s : Store) (activity_name : String) (email : String) :
    Except HTTPException (String × Store) :=
  match findActivity s activity_name with
  | none => .error ⟨404, "Activity not found"⟩
  | some activity =>
    match findParticipantByEmail s email with
    | none => .error ⟨400, "Student is not signed up for this activity"⟩
    | some participant =>
      if (⟨activity.id, participant.id⟩ : ActivityParticipant) ∈ s.activity_participants then
        .ok ("Unregistered " ++ email ++ " from " ++ activity_name,
          { s with activity_participants :=
              removeLink ⟨activity.id, participant.id⟩ s.activity_participants })
      else
        .error ⟨400, "Student is not signed up for this activity"⟩

/-- Value of `activity_to_dict`: the JSON object served per activity. -/
structure ActivityOut where
  description : String
  schedule : String
  max_participants : Nat
  participants : List String
deriving Repr, DecidableEq

/-- `activity_to_dict(activity)` from `src/app.py`. -/
def activity_to_dict (s : Store) (activity : Activity) : ActivityOut :=
  ⟨activity.description, activity.schedule, activity.max_participants,
    activityParticipantEmails s activity.id⟩

/-- Ordering used by `select(Activity).order_by(Activity.name)`. -/
def nameLe (a b : Activity) : Prop := strLe a.name b.name = true

instance : DecidableRel nameLe := fun _ _ => instDecidableEqBool _ _

/-- `GET /activities` (`get_activities` in `src/app.py`): the activities
sorted by name ascending, each mapped to its `activity_to_dict` value;
the Python dict keyed by name is modelled as the association list in
that order. -/
def get_activities (s : Store) : List (String × ActivityOut) :=
  (List.insertionSort nameLe s.activities).map
    (fun activity => (activity.name, activity_to_dict s activity))

/-- One entry of the starter dataset `INITIAL_ACTIVITIES`. -/
structure SeedActivity where
  name : String
  description : String
  schedule : String
  max_participants : Nat
  participants : List String
deriving Repr, DecidableEq

/-- The fixed starter dataset from `src/app.py`, in dict insertion order. -/
def INITIAL_ACTIVITIES : List SeedActivity :=
  [ ⟨"Chess Club",
     "Learn strategies and compete in chess tournaments",
     "Fridays, 3:30 PM - 5:00 PM", 12,
     ["michael@mergington.edu", "daniel@mergington.edu"]⟩,
    ⟨"Programming Class",
     "Learn programming fundamentals and build software projects",
     "Tuesdays and Thursdays, 3:30 PM - 4:30 PM", 20,
     ["emma@mergington.edu", "sophia@mergington.edu"]⟩,
    ⟨"Gym Class",
     "Physical education and sports activities",
     "Mondays, Wednesdays, Fridays, 2:00 PM - 3:00 PM", 30,
     ["john@mergington.edu", "olivia@mergington.edu"]⟩,
    ⟨"Soccer Team",
     "Join the school soccer team and compete in matches",
     "Tuesdays and Thursdays, 4:00 PM - 5:30 PM", 22,
     ["liam@mergington.edu", "noah@mergington.edu"]⟩,
    ⟨"Basketball Team",
     "Practice and play basketball with the school team",
     "Wednesdays and Fridays, 3:30 PM - 5:00 PM", 15,
     ["ava@mergington.edu", "mia@mergington.edu"]⟩,
    ⟨"Art Club",
     "Explore your creativity through painting and drawing",
     "Thursdays, 3:30 PM - 5:00 PM", 15,
     ["amelia@mergington.edu", "harper@mergington.edu"]⟩,
    ⟨"Drama Club",
     "Act, direct, and produce plays and performances",
     "Mondays and Wednesdays, 4:00 PM - 5:30 PM", 20,
     ["ella@mergington.edu", "scarlett@mergington.edu"]⟩,
    ⟨"Math Club",
     "Solve challenging problems and participate in math competitions",
     "Tuesdays, 3:30 PM - 4:30 PM", 10,
     ["james@mergington.edu", "benjamin@mergington.edu"]⟩,
    ⟨"Debate Team",
     "Develop public speaking and argumentation skills",
     "Fridays, 4:00 PM - 5:30 PM", 12,
     ["charlotte@mergington.edu", "henry@mergington.edu"]⟩ ]

/-- Inner loop of `seed_initial_data`: reuse the participant row matched
by email or create one, then append the link row for activity `aid`. -/
def seedParticipant (aid : Nat) (s : Store) (email : String) : Store :=
  match findParticipantByEmail s email with
  | some participant =>
    { s with activity_participants := s.activity_participants ++ [⟨aid, participant.id⟩] }
  | none =>
    { s with
      participants := s.participants ++ [⟨s.next_participant_id, email⟩],
      next_participant_id := s.next_participant_id + 1,
      activity_participants := s.activity_participants ++ [⟨aid, s.next_participant_id⟩] }

/-- Body of the `for name, data in INITIAL_ACTIVITIES.items()` loop:
insert the activity row, then link each seed email. -/
def seedOne (s : Store) (d : SeedActivity) : Store :=
  let activity : Activity :=
    ⟨s.next_activity_id, d.name, d.description, d.schedule, d.max_participants⟩
  d.participants.foldl (seedParticipant activity.id)
    { s with activities := s.activities ++ [activity],
             next_activity_id := s.next_activity_id + 1 }

/-- `seed_initial_data` from `src/app.py`: no-op when an activity row
already exists (the source tests truthiness of the first selected id;
SQLite ids are ≥ 1, so that is emptiness of the table), else load the
starter dataset. -/
def seed_initial_data (s : Store) : Store :=
  if s.activities.isEmpty then INITIAL_ACTIVITIES.foldl seedOne s else s

/-- One client-visible API operation. -/
inductive Op where
  | signup (activity_name email : String)
  | unregister (activity_name email : String)
  | listActivities
deriving Repr, DecidableEq

/-- The store after handling one request: a failing request (an
`HTTPException`) commits nothing, a successful one commits its new
store; `GET /activities` never writes. -/
def applyOp (s : Store) : Op → Store
  | .signup n e =>
    match signup_for_activity s n e with
    | .ok (_, s') => s'
    | .error _ => s
  | .unregister n e =>
    match unregister_from_activity s n e with
    | .ok (_, s') => s'
    | .error _ => s
  | .listActivities => s

/-- The store after a sequence of requests. -/
def runOps (s : Store) (ops : List Op) : Store := ops.foldl applyOp s

/-- Well-formedness of a store, as the real database guarantees it:
unique surrogate ids and natural keys, no duplicate link row (the link
table's composite primary key), referential integrity of the link
table, and surrogate ids below the next id the table would assign. -/
def WF (s : Store) : Prop :=
  (s.activities.map Activity.id).Nodup ∧
  (s.activities.map Activity.name).Nodup ∧
  (s.participants.map Participant.id).Nodup ∧
  (s.participants.map Participant.email).Nodup ∧
  s.activity_participants.Nodup ∧
  (∀ m ∈ s.activity_participants,
    (∃ a ∈ s.activities, a.id = m.activity_id) ∧
    ∃ p ∈ s.participants, p.id = m.participant_id) ∧
  (∀ a ∈ s.activities, a.id < s.next_activity_id) ∧
  (∀ p ∈ s.participants, p.id < s.next_participant_id)

instance : DecidablePred WF := fun s => by
  unfold WF
  infer_instance

/-- A small concrete store: one activity with capacity 0 and no
participants. -/
def storeA : Store := ⟨[⟨1, "Chess Club", "Chess", "Fridays", 0⟩], [], [], 2, 1⟩

/-- A small concrete store: one activity with one signed-up participant. -/
def storeB : Store :=
  ⟨[⟨1, "Chess Club", "Chess", "Fridays", 12⟩],
   [⟨1, "michael@mergington.edu"⟩], [⟨1, 1⟩], 2, 2⟩

/-- A small concrete store with two activities, the first having one
signed-up participant. -/
def storeC : Store :=
  ⟨[⟨1, "Chess Club", "Chess", "Fridays", 12⟩, ⟨2, "Art Club", "Art", "Thursdays", 15⟩],
   [⟨1, "michael@mergington.edu"⟩], [⟨1, 1⟩], 3, 2⟩

/-! ### Generic list helpers -/

/-- The lexicographic comparator is total. -/
theorem strLeB_total (x y : List Char) : strLeB x y = true ∨ strLeB y x = true := by
  induction x generalizing y with
  | nil => left; rfl
  | cons c cs ih =>
    cases y with
    | nil => right; rfl
    | cons d ds =>
      rcases Nat.lt_trichotomy c.toNat d.toNat with h | h | h
      · left; simp [strLeB, h]
      · rcases ih ds with h2 | h2
        · left; simp [strLeB, h, h2]
        · right; simp [strLeB, h.symm, h2]
      · right; simp [strLeB, h]

/-- The lexicographic comparator is transitive. -/
theorem strLeB_trans (x y z : List Char) (h1 : strLeB x y = true)
    (h2 : strLeB y z = true) : strLeB x z = true := by
  induction x generalizing y z with
  | nil => rfl
  | cons c cs ih =>
    cases y with
    | nil => simp [strLeB] at h1
    | cons d ds =>
      cases z with
      | nil => simp [strLeB] at h2
      | cons e es =>
        simp only [strLeB] at h1 h2 ⊢
        rcases Nat.lt_trichotomy c.toNat d.toNat with hcd | hcd | hcd
        · rcases Nat.lt_trichotomy d.toNat e.toNat with hde | hde | hde
          · simp [Nat.lt_trans hcd hde]
          · simp [hde ▸ hcd]
          · simp [hde, Nat.lt_asymm hde] at h2
        · rcases Nat.lt_trichotomy d.toNat e.toNat with hde | hde | hde
          · simp [hcd ▸ hde]
          · simp [hcd, hde, Nat.lt_irrefl] at h1 h2 ⊢
            exact ih ds es h1 h2
          · simp [hde, Nat.lt_asymm hde] at h2
        · simp [hcd, Nat.lt_asymm hcd] at h1

/-- In a duplicate-free list, a present element is counted exactly once. -/
theorem nodup_count_eq_one {α} [BEq α] [LawfulBEq α] {l : List α} {a : α}
    (hn : l.Nodup) (ha : a ∈ l) : l.count a = 1 := by
  induction l with
  | nil => cases ha
  | cons b t ih =>
    rw [List.nodup_cons] at hn
    rcases List.mem_cons.mp ha with rfl | hat
    · have : t.count a = 0 := List.count_eq_zero.mpr hn.1
      simp [List.count_cons, this]
    · cases hba : b == a with
      | true => exact absurd hat (eq_of_beq hba ▸ hn.1)
      | false => simp [List.count_cons, hba, ih hn.2 hat]

/-- `filterMap` preserves `Nodup` when the partial map is injective on the
list's members. -/
theorem nodup_filterMap_on {α β} {f : α → Option β} {l : List α} (hn : l.Nodup)
    (hinj : ∀ a ∈ l, ∀ a' ∈ l, ∀ b, f a = some b → f a' = some b → a = a') :
    (l.filterMap f).Nodup := by
  induction l with
  | nil => simp
  | cons a t ih =>
    rw [List.nodup_cons] at hn
    have ht : (t.filterMap f).Nodup :=
      ih hn.2 (fun x hx y hy b hb hb' =>
        hinj x (List.mem_cons_of_mem a hx) y (List.mem_cons_of_mem a hy) b hb hb')
    cases hfa : f a with
    | none => simpa [List.filterMap_cons, hfa] using ht
    | some b =>
      rw [List.filterMap_cons, hfa, List.nodup_cons]
      refine ⟨fun hmem => ?_, ht⟩
      obtain ⟨a', ha', hfa'⟩ := List.mem_filterMap.mp hmem
      have : a = a' :=
        hinj a (List.mem_cons_self a t) a' (List.mem_cons_of_mem a ha') b hfa hfa'
      exact hn.1 (this ▸ ha')

/-- Appending an element that fails the predicate does not change `find?`. -/
theorem find?_append_not {α} {p : α → Bool} (l : List α) {x : α} (hx : p x = false) :
    (l ++ [x]).find? p = l.find? p := by
  rw [List.find?_append]
  cases h : l.find? p with
  | none => simp [List.find?, hx]
  | some a => rfl

/-! ### Lookup characterisations -/

/-- A successful activity lookup returns a stored row with the queried name. -/
theorem findActivity_spec {s : Store} {n : String} {a : Activity}
    (h : findActivity s n = some a) : a ∈ s.activities ∧ a.name = n :=
  ⟨List.mem_of_find?_eq_some h, by simpa using List.find?_some h⟩

/-- A successful participant lookup returns a stored row with the queried email. -/
theorem findParticipantByEmail_spec {s : Store} {e : String} {p : Participant}
    (h : findParticipantByEmail s e = some p) : p ∈ s.participants ∧ p.email = e :=
  ⟨List.mem_of_find?_eq_some h, by simpa using List.find?_some h⟩

/-- Participant lookup by email fails exactly when no row has that email. -/
theorem findParticipantByEmail_none {s : Store} {e : String} :
    findParticipantByEmail s e = none ↔ ∀ p ∈ s.participants, p.email ≠ e := by
  unfold findParticipantByEmail
  rw [List.find?_eq_none]
  simp

/-- With duplicate-free participant ids, looking a stored row up by its own
id returns that row. -/
theorem findParticipantById_self {s : Store}
    (hids : (s.participants.map Participant.id).Nodup)
    {p : Participant} (hp : p ∈ s.participants) :
    findParticipantById s p.id = some p := by
  unfold findParticipantById
  cases hfind : s.participants.find? (fun q => q.id == p.id) with
  | none =>
    rw [List.find?_eq_none] at hfind
    exact absurd (by simp : (p.id == p.id) = true) (by simpa using hfind p hp)
  | some q =>
    have hqmem : q ∈ s.participants := List.mem_of_find?_eq_some hfind
    have hqid : q.id = p.id := by simpa using List.find?_some hfind
    rw [List.inj_on_of_nodup_map hids hqmem hp hqid]

/-- A successful participant lookup by id returns a stored row with the
queried id. -/
theorem findParticipantById_spec {s : Store} {pid : Nat} {q : Participant}
    (h : findParticipantById s pid = some q) : q ∈ s.participants ∧ q.id = pid :=
  ⟨List.mem_of_find?_eq_some h, by simpa using List.find?_some h⟩

/-! ### The participant-email view of an activity -/

/-- With duplicate-free participant ids, an email is in an activity's
collection exactly when some participant row with that email is linked to
the activity. -/
theorem mem_activityParticipantEmails {s : Store} {aid : Nat} {e : String}
    (hids : (s.participants.map Participant.id).Nodup) :
    e ∈ activityParticipantEmails s aid ↔
      ∃ p ∈ s.participants, p.email = e ∧
        (⟨aid, p.id⟩ : ActivityParticipant) ∈ s.activity_participants := by
  unfold activityParticipantEmails
  constructor
  · intro h
    obtain ⟨m, hm, hme⟩ := List.mem_filterMap.mp h
    obtain ⟨hmem, hmaid⟩ := List.mem_filter.mp hm
    cases hq : findParticipantById s m.participant_id with
    | none => rw [hq] at hme; cases hme
    | some q =>
      rw [hq] at hme
      have hqe : q.email = e := by simpa using hme
      have hqmem : q ∈ s.participants := List.mem_of_find?_eq_some hq
      have hqid : q.id = m.participant_id := (findParticipantById_spec hq).2
      refine ⟨q, hqmem, hqe, ?_⟩
      have haid : m.activity_id = aid := by simpa using hmaid
      have : (⟨aid, q.id⟩ : ActivityParticipant) = m := by
        cases m; simp_all
      rwa [this]
  · rintro ⟨p, hp, hpe, hlink⟩
    refine List.mem_filterMap.mpr ⟨⟨aid, p.id⟩, ?_, ?_⟩
    · exact List.mem_filter.mpr ⟨hlink, by simp⟩
    · rw [findParticipantById_self hids hp]
      simpa using hpe

/-- In a well-formed store no activity's email collection has duplicates. -/
theorem activityParticipantEmails_nodup {s : Store} (hwf : WF s) (aid : Nat) :
    (activityParticipantEmails s aid).Nodup := by
  obtain ⟨_, _, hpid, hpem, hlinks, _href, _, _⟩ := hwf
  unfold activityParticipantEmails
  have hfl : (s.activity_participants.filter (fun m => m.activity_id == aid)).Nodup :=
    List.Nodup.sublist (List.filter_sublist _) hlinks
  refine nodup_filterMap_on hfl ?_
  intro m hm m' hm' b hb hb'
  have hmaid : m.activity_id = aid := by simpa using (List.mem_filter.mp hm).2
  have hmaid' : m'.activity_id = aid := by simpa using (List.mem_filter.mp hm').2
  cases hq : findParticipantById s m.participant_id with
  | none => rw [hq] at hb; cases hb
  | some q =>
    cases hq' : findParticipantById s m'.participant_id with
    | none => rw [hq'] at hb'; cases hb'
    | some q' =>
      rw [hq] at hb; rw [hq'] at hb'
      have hqe : q.email = b := by simpa using hb
      have hqe' : q'.email = b := by simpa using hb'
      have hqmem : q ∈ s.participants := List.mem_of_find?_eq_some hq
      have hqmem' : q' ∈ s.participants := List.mem_of_find?_eq_some hq'
      have hqq : q = q' :=
        List.inj_on_of_nodup_map hpem hqmem hqmem' (hqe.trans hqe'.symm)
      have hqid : q.id = m.participant_id := (findParticipantById_spec hq).2
      have hqid' : q'.id = m'.participant_id := (findParticipantById_spec hq').2
      cases m; cases m'
      simp_all

/-- Two stores agreeing on an activity's link rows, and resolving each of
those rows to the same participant, give the activity the same email
collection. -/
theorem activityParticipantEmails_congr {s s' : Store} {aid : Nat}
    (hfilter : s'.activity_participants.filter (fun m => m.activity_id == aid) =
      s.activity_participants.filter (fun m => m.activity_id == aid))
    (hres : ∀ m ∈ s.activity_participants.filter (fun m => m.activity_id == aid),
      findParticipantById s' m.participant_id = findParticipantById s m.participant_id) :
    activityParticipantEmails s' aid = activityParticipantEmails s aid := by
  unfold activityParticipantEmails
  rw [hfilter]
  exact List.filterMap_congr (fun m hm => by rw [hres m hm])

/-! ### `removeLink` -/

/-- `removeLink` yields a sublist. -/
theorem removeLink_sublist (x : ActivityParticipant) (l : List ActivityParticipant) :
    (removeLink x l).Sublist l := by
  induction l with
  | nil => simp [removeLink]
  | cons y t ih =>
    by_cases hyx : y = x
    · rw [removeLink, if_pos hyx]
      exact List.sublist_cons_self y t
    · rw [removeLink, if_neg hyx]
      exact List.Sublist.cons₂ y ih

/-- On a duplicate-free list, membership after `removeLink x` is
membership before, minus `x` itself. -/
theorem mem_removeLink {x : ActivityParticipant} {l : List ActivityParticipant}
    (hl : l.Nodup) (m : ActivityParticipant) :
    m ∈ removeLink x l ↔ m ∈ l ∧ m ≠ x := by
  induction l with
  | nil => simp [removeLink]
  | cons y t ih =>
    rw [List.nodup_cons] at hl
    by_cases hyx : y = x
    · subst hyx
      simp only [removeLink, if_pos rfl]
      constructor
      · intro hm
        exact ⟨List.mem_cons_of_mem y hm, fun hmx => hl.1 (hmx ▸ hm)⟩
      · rintro ⟨hm, hmx⟩
        rcases List.mem_cons.mp hm with rfl | hmt
        · exact absurd rfl hmx
        · exact hmt
    · simp only [removeLink, if_neg hyx, List.mem_cons]
      rw [ih hl.2]
      constructor
      · rintro (rfl | ⟨hm, hmx⟩)
        · exact ⟨Or.inl rfl, hyx⟩
        · exact ⟨Or.inr hm, hmx⟩
      · rintro ⟨rfl | hm, hmx⟩
        · exact Or.inl rfl
        · exact Or.inr ⟨hm, hmx⟩

/-- Removing a present element shortens the list by exactly one. -/
theorem removeLink_length {x : ActivityParticipant} {l : List ActivityParticipant}
    (hx : x ∈ l) : (removeLink x l).length + 1 = l.length := by
  induction l with
  | nil => cases hx
  | cons y t ih =>
    by_cases hyx : y = x
    · simp [removeLink, hyx]
    · have hxt : x ∈ t := by
        rcases List.mem_cons.mp hx with rfl | h
        · exact absurd rfl hyx
        · exact h
      simp only [removeLink, if_neg hyx, List.length_cons]
      rw [← ih hxt]

/-- Removing an element that fails a filter predicate leaves the filtered
list unchanged. -/
theorem removeLink_filter {x : ActivityParticipant} {p : ActivityParticipant → Bool}
    (l : List ActivityParticipant) (hx : p x = false) :
    (removeLink x l).filter p = l.filter p := by
  induction l with
  | nil => simp [removeLink]
  | cons y t ih =>
    by_cases hyx : y = x
    · subst hyx
      simp [removeLink, List.filter_cons, hx]
    · simp only [removeLink, if_neg hyx, List.filter_cons]
      rw [ih]

/-! ### Well-formedness preservation -/

/-- A failed duplicate check means the email is absent from the collection. -/
theorem not_mem_of_any_beq_false {l : List String} {e : String}
    (h : (l.any fun pe => pe == e) = false) : e ∉ l := by
  rw [List.any_eq_false] at h
  intro hmem
  exact h e hmem (by simp)

/-- Adding a link between stored rows that are not yet linked preserves
well-formedness. -/
theorem wf_addLink {s : Store} (hwf : WF s) {a : Activity} {p : Participant}
    (ha : a ∈ s.activities) (hp : p ∈ s.participants)
    (hnew : (⟨a.id, p.id⟩ : ActivityParticipant) ∉ s.activity_participants) :
    WF { s with activity_participants := s.activity_participants ++ [⟨a.id, p.id⟩] } := by
  obtain ⟨h1, h2, h3, h4, h5, h6, h7, h8⟩ := hwf
  refine ⟨h1, h2, h3, h4, ?_, ?_, h7, h8⟩
  · rw [List.nodup_append]
    exact ⟨h5, List.nodup_singleton _, by rwa [List.disjoint_singleton]⟩
  · intro m hm
    rcases List.mem_append.mp hm with hm | hm
    · exact h6 m hm
    · rw [List.mem_singleton] at hm
      subst hm
      exact ⟨⟨a, ha, rfl⟩, ⟨p, hp, rfl⟩⟩

/-- Lazily creating a fresh participant row and linking it to a stored
activity preserves well-formedness. -/
theorem wf_addParticipantLink {s : Store} (hwf : WF s) {a : Activity} {e : String}
    (ha : a ∈ s.activities) (hnone : findParticipantByEmail s e = none) :
    WF { s with
      participants := s.participants ++ [⟨s.next_participant_id, e⟩],
      next_participant_id := s.next_participant_id + 1,
      activity_participants :=
        s.activity_participants ++ [⟨a.id, s.next_participant_id⟩] } := by
  obtain ⟨h1, h2, h3, h4, h5, h6, h7, h8⟩ := hwf
  have hfresh : ∀ p ∈ s.participants, p.id ≠ s.next_participant_id :=
    fun p hp => Nat.ne_of_lt (h8 p hp)
  refine ⟨h1, h2, ?_, ?_, ?_, ?_, h7, ?_⟩
  · rw [List.map_append, List.nodup_append]
    refine ⟨h3, List.nodup_singleton _, ?_⟩
    simp only [List.map_cons, List.map_nil, List.disjoint_singleton]
    intro hmem
    obtain ⟨p, hp, hpid⟩ := List.mem_map.mp hmem
    exact hfresh p hp hpid
  · rw [List.map_append, List.nodup_append]
    refine ⟨h4, List.nodup_singleton _, ?_⟩
    simp only [List.map_cons, List.map_nil, List.disjoint_singleton]
    intro hmem
    obtain ⟨p, hp, hpe⟩ := List.mem_map.mp hmem
    exact findParticipantByEmail_none.mp hnone p hp hpe
  · rw [List.nodup_append]
    refine ⟨h5, List.nodup_singleton _, ?_⟩
    rw [List.disjoint_singleton]
    intro hmem
    obtain ⟨_, ⟨p, hp, hpid⟩⟩ := h6 _ hmem
    exact hfresh p hp hpid
  · intro m hm
    rcases List.mem_append.mp hm with hm | hm
    · obtain ⟨hact, ⟨p, hp, hpid⟩⟩ := h6 m hm
      exact ⟨hact, ⟨p, List.mem_append_left _ hp, hpid⟩⟩
    · rw [List.mem_singleton] at hm
      subst hm
      exact ⟨⟨a, ha, rfl⟩,
        ⟨⟨s.next_participant_id, e⟩, List.mem_append_right _ (List.mem_singleton_self _), rfl⟩⟩
  · intro p hp
    rcases List.mem_append.mp hp with hp | hp
    · exact Nat.lt_succ_of_lt (h8 p hp)
    · rw [List.mem_singleton] at hp
      subst hp
      exact Nat.lt_succ_self _
/-- Removing a link row preserves well-formedness. -/
theorem wf_removeLink {s : Store} (hwf : WF s) (x : ActivityParticipant) :
    WF { s with activity_participants := removeLink x s.activity_participants } := by
  obtain ⟨h1, h2, h3, h4, h5, h6, h7, h8⟩ := hwf
  refine ⟨h1, h2, h3, h4, List.Nodup.sublist (removeLink_sublist x _) h5, ?_, h7, h8⟩
  intro m hm
  exact h6 m ((removeLink_sublist x _).subset hm)

/-- A successful signup leaves the store well-formed. -/
theorem wf_signup_ok {s s' : Store} {n e msg : String} (hwf : WF s)
    (h : signup_for_activity s n e = .ok (msg, s')) : WF s' := by
  cases hA : findActivity s n with
  | none => simp [signup_for_activity, hA] at h
  | some a =>
    have ha := (findActivity_spec hA).1
    cases hchk : (activityParticipantEmails s a.id).any (fun pe => pe == e) with
    | true => simp [signup_for_activity, hA, hchk] at h
    | false =>
      have hne : e ∉ activityParticipantEmails s a.id := not_mem_of_any_beq_false hchk
      cases hp : findParticipantByEmail s e with
      | some p =>
        obtain ⟨hpmem, hpe⟩ := findParticipantByEmail_spec hp
        have hnew : (⟨a.id, p.id⟩ : ActivityParticipant) ∉ s.activity_participants := by
          intro hmem
          exact hne ((mem_activityParticipantEmails hwf.2.2.1).mpr ⟨p, hpmem, hpe, hmem⟩)
        simp only [signup_for_activity, hA, hchk, Bool.false_eq_true, if_false, hp,
          Except.ok.injEq, Prod.mk.injEq] at h
        rw [← h.2]
        exact wf_addLink hwf ha hpmem hnew
      | none =>
        simp only [signup_for_activity, hA, hchk, Bool.false_eq_true, if_false, hp,
          Except.ok.injEq, Prod.mk.injEq] at h
        rw [← h.2]
        exact wf_addParticipantLink hwf ha hp

/-- A successful unregister leaves the store well-formed. -/
theorem wf_unregister_ok {s s' : Store} {n e msg : String} (hwf : WF s)
    (h : unregister_from_activity s n e = .ok (msg, s')) : WF s' := by
  cases hA : findActivity s n with
  | none => simp [unregister_from_activity, hA] at h
  | some a =>
    cases hp : findParticipantByEmail s e with
    | none => simp [unregister_from_activity, hA, hp] at h
    | some p =>
      by_cases hm : (⟨a.id, p.id⟩ : ActivityParticipant) ∈ s.activity_participants
      · simp only [unregister_from_activity, hA, hp, if_pos hm,
          Except.ok.injEq, Prod.mk.injEq] at h
        rw [← h.2]
        exact wf_removeLink hwf _
      · simp [unregister_from_activity, hA, hp, hm] at h

/-- Handling any single request preserves well-formedness. -/
theorem wf_applyOp {s : Store} (hwf : WF s) (op : Op) : WF (applyOp s op) := by
  cases op with
  | signup n e =>
    cases h : signup_for_activity s n e with
    | ok r =>
      obtain ⟨msg, s'⟩ := r
      have hred : applyOp s (.signup n e) = s' := by simp [applyOp, h]
      rw [hred]
      exact wf_signup_ok hwf h
    | error err =>
      have hred : applyOp s (.signup n e) = s := by simp [applyOp, h]
      rw [hred]
      exact hwf
  | unregister n e =>
    cases h : unregister_from_activity s n e with
    | ok r =>
      obtain ⟨msg, s'⟩ := r
      have hred : applyOp s (.unregister n e) = s' := by simp [applyOp, h]
      rw [hred]
      exact wf_unregister_ok hwf h
    | error err =>
      have hred : applyOp s (.unregister n e) = s := by simp [applyOp, h]
      rw [hred]
      exact hwf
  | listActivities => exact hwf

/-- Handling any request sequence preserves well-formedness. -/
theorem wf_runOps : ∀ (ops : List Op) (s : Store), WF s → WF (runOps s ops)
  | [], _, hwf => hwf
  | op :: t, s, hwf => wf_runOps t (applyOp s op) (wf_applyOp hwf op)

/-! ### Seeding -/

/-- The seed inner loop never touches the activity table. -/
theorem seedParticipant_activities (aid : Nat) (s : Store) (e : String) :
    (seedParticipant aid s e).activities = s.activities := by
  unfold seedParticipant
  cases findParticipantByEmail s e <;> rfl

/-- Folding the seed inner loop never touches the activity table. -/
theorem foldl_seedParticipant_activities (aid : Nat) :
    ∀ (l : List String) (s : Store),
      (l.foldl (seedParticipant aid) s).activities = s.activities
  | [], _ => rfl
  | e :: t, s => by
    rw [List.foldl_cons, foldl_seedParticipant_activities aid t,
      seedParticipant_activities]

/-- Each starter entry adds exactly one activity row. -/
theorem seedOne_activities_length (s : Store) (d : SeedActivity) :
    (seedOne s d).activities.length = s.activities.length + 1 := by
  unfold seedOne
  rw [foldl_seedParticipant_activities]
  simp

/-- Folding the starter dataset adds one activity row per entry. -/
theorem foldl_seedOne_activities_length :
    ∀ (l : List SeedActivity) (s : Store),
      (l.foldl seedOne s).activities.length = s.activities.length + l.length
  | [], _ => rfl
  | d :: t, s => by
    rw [List.foldl_cons, foldl_seedOne_activities_length t,
      seedOne_activities_length, List.length_cons]
    omega

/-- Seeding a store that already has an activity row is a no-op. -/
theorem seed_initial_data_noop {s : Store} (h : s.activities ≠ []) :
    seed_initial_data s = s := by
  unfold seed_initial_data
  rw [if_neg]
  rw [List.isEmpty_iff]
  exact h

/-- Seeding an empty store produces the nine starter activities. -/
theorem seed_initial_data_card {s : Store} (h : s.activities = []) :
    (seed_initial_data s).activities.length = 9 := by
  unfold seed_initial_data
  rw [if_pos (by rw [List.isEmpty_iff]; exact h), foldl_seedOne_activities_length, h]
  rfl

/-! ### Shapes of successful requests -/

/-- An absent email makes the duplicate check come out false. -/
theorem any_beq_false_of_not_mem {l : List String} {e : String} (h : e ∉ l) :
    (l.any fun pe => pe == e) = false := by
  rw [List.any_eq_false]
  intro x hx
  simp only [beq_iff_eq]
  exact fun hxe => h (hxe ▸ hx)

/-- Everything a successful signup tells us: the activity was found, the
email was not yet in its collection, and the new store appends one link
row, lazily creating the participant row when the email is new. -/
theorem signup_ok_shape {s s' : Store} {n e msg : String}
    (h : signup_for_activity s n e = .ok (msg, s')) :
    ∃ a, findActivity s n = some a ∧
      e ∉ activityParticipantEmails s a.id ∧
      msg = "Signed up " ++ e ++ " for " ++ n ∧
      ((∃ p, findParticipantByEmail s e = some p ∧
          s' = { s with activity_participants :=
            s.activity_participants ++ [⟨a.id, p.id⟩] }) ∨
        (findParticipantByEmail s e = none ∧
          s' = { s with
            participants := s.participants ++ [⟨s.next_participant_id, e⟩],
            next_participant_id := s.next_participant_id + 1,
            activity_participants :=
              s.activity_participants ++ [⟨a.id, s.next_participant_id⟩] })) := by
  cases hA : findActivity s n with
  | none => simp [signup_for_activity, hA] at h
  | some a =>
    cases hchk : (activityParticipantEmails s a.id).any (fun pe => pe == e) with
    | true => simp [signup_for_activity, hA, hchk] at h
    | false =>
      cases hp : findParticipantByEmail s e with
      | some p =>
        simp only [signup_for_activity, hA, hchk, Bool.false_eq_true, if_false, hp,
          Except.ok.injEq, Prod.mk.injEq] at h
        exact ⟨a, rfl, not_mem_of_any_beq_false hchk, h.1.symm,
          Or.inl ⟨p, rfl, h.2.symm⟩⟩
      | none =>
        simp only [signup_for_activity, hA, hchk, Bool.false_eq_true, if_false, hp,
          Except.ok.injEq, Prod.mk.injEq] at h
        exact ⟨a, rfl, not_mem_of_any_beq_false hchk, h.1.symm,
          Or.inr ⟨rfl, h.2.symm⟩⟩

/-- Everything a successful unregister tells us: activity and participant
were found, the link existed, and the new store removes that link row. -/
theorem unregister_ok_shape {s s' : Store} {n e msg : String}
    (h : unregister_from_activity s n e = .ok (msg, s')) :
    ∃ a p, findActivity s n = some a ∧ findParticipantByEmail s e = some p ∧
      (⟨a.id, p.id⟩ : ActivityParticipant) ∈ s.activity_participants ∧
      msg = "Unregistered " ++ e ++ " from " ++ n ∧
      s' = { s with activity_participants := removeLink ⟨a.id, p.id⟩ s.activity_participants } := by
  cases hA : findActivity s n with
  | none => simp [unregister_from_activity, hA] at h
  | some a =>
    cases hp : findParticipantByEmail s e with
    | none => simp [unregister_from_activity, hA, hp] at h
    | some p =>
      by_cases hm : (⟨a.id, p.id⟩ : ActivityParticipant) ∈ s.activity_participants
      · simp only [unregister_from_activity, hA, hp, if_pos hm,
          Except.ok.injEq, Prod.mk.injEq] at h
        exact ⟨a, p, rfl, rfl, hm, h.1.symm, h.2.symm⟩
      · simp [unregister_from_activity, hA, hp, hm] at h

/-! ### Claims -/

/-- **C7**: when no activity row has the requested name, signup fails with
status 404 and detail "Activity not found", and the store is unchanged:
no participant row and no link row is created. -/
theorem signup_unknown_activity_spec (s : Store) (n e : String)
    (hA : findActivity s n = none) :
    signup_for_activity s n e = .error ⟨404, "Activity not found"⟩ ∧
    applyOp s (.signup n e) = s := by
  have h : signup_for_activity s n e = .error ⟨404, "Activity not found"⟩ := by
    simp [signup_for_activity, hA]
  exact ⟨h, by simp [applyOp, h]⟩

/-- Witness for C7 on a concrete store and unknown activity name. -/
theorem signup_unknown_activity_spec_witness :
    signup_for_activity storeA "Knitting Club" "kim@mergington.edu" =
      .error ⟨404, "Activity not found"⟩ ∧
    applyOp storeA (.signup "Knitting Club" "kim@mergington.edu") = storeA :=
  signup_unknown_activity_spec storeA "Knitting Club" "kim@mergington.edu" (by decide)

/-- **C3**: when the email is already in the activity's collection, a
second signup fails with status 400 and detail "Student is already signed
up", the store is unchanged (no new participant or link row), and the
activity's collection still contains the email exactly once. -/
theorem signup_duplicate_spec (s : Store) (n e : String) (a : Activity)
    (hwf : WF s) (hA : findActivity s n = some a)
    (he : e ∈ activityParticipantEmails s a.id) :
    signup_for_activity s n e = .error ⟨400, "Student is already signed up"⟩ ∧
    applyOp s (.signup n e) = s ∧
    (activityParticipantEmails s a.id).count e = 1 := by
  have hchk : ((activityParticipantEmails s a.id).any fun pe => pe == e) = true :=
    List.any_eq_true.mpr ⟨e, he, by simp⟩
  have h : signup_for_activity s n e = .error ⟨400, "Student is already signed up"⟩ := by
    simp [signup_for_activity, hA, hchk]
  exact ⟨h, by simp [applyOp, h],
    nodup_count_eq_one (activityParticipantEmails_nodup hwf a.id) he⟩

/-- Witness for C3: duplicate signup of the seeded participant of `storeB`. -/
theorem signup_duplicate_spec_witness :
    signup_for_activity storeB "Chess Club" "michael@mergington.edu" =
      .error ⟨400, "Student is already signed up"⟩ ∧
    applyOp storeB (.signup "Chess Club" "michael@mergington.edu") = storeB ∧
    (activityParticipantEmails storeB 1).count "michael@mergington.edu" = 1 :=
  signup_duplicate_spec storeB "Chess Club" "michael@mergington.edu"
    ⟨1, "Chess Club", "Chess", "Fridays", 12⟩ (by decide) (by decide) (by decide)

/-- **C5**: with the activity found, unregister fails with status 400 and
detail "Student is not signed up for this activity" exactly when either no
participant row has that email, or the (unique) row with that email has no
link to this activity; and any failing unregister leaves the store
unchanged. -/
theorem unregister_conflict_spec (s : Store) (n e : String) (a : Activity)
    (hwf : WF s) (hA : findActivity s n = some a) :
    (unregister_from_activity s n e =
        .error ⟨400, "Student is not signed up for this activity"⟩ ↔
      (¬∃ p ∈ s.participants, p.email = e) ∨
        ∃ p ∈ s.participants, p.email = e ∧
          (⟨a.id, p.id⟩ : ActivityParticipant) ∉ s.activity_participants) ∧
    (∀ err, unregister_from_activity s n e = .error err →
      applyOp s (.unregister n e) = s) := by
  constructor
  · cases hp : findParticipantByEmail s e with
    | none =>
      have h : unregister_from_activity s n e =
          .error ⟨400, "Student is not signed up for this activity"⟩ := by
        simp [unregister_from_activity, hA, hp]
      have hno : ¬∃ p ∈ s.participants, p.email = e := by
        rintro ⟨p, hpmem, hpe⟩
        exact findParticipantByEmail_none.mp hp p hpmem hpe
      exact ⟨fun _ => Or.inl hno, fun _ => h⟩
    | some p =>
      obtain ⟨hpmem, hpe⟩ := findParticipantByEmail_spec hp
      by_cases hm : (⟨a.id, p.id⟩ : ActivityParticipant) ∈ s.activity_participants
      · have h : unregister_from_activity s n e =
            .ok ("Unregistered " ++ e ++ " from " ++ n,
              { s with activity_participants := removeLink ⟨a.id, p.id⟩ s.activity_participants }) := by
          simp [unregister_from_activity, hA, hp, hm]
        constructor
        · intro heq
          rw [h] at heq
          cases heq
        · rintro (hno | ⟨q, hqmem, hqe, hqnot⟩)
          · exact absurd ⟨p, hpmem, hpe⟩ hno
          · have hq : q = p :=
              List.inj_on_of_nodup_map hwf.2.2.2.1 hqmem hpmem (by rw [hqe, hpe])
            rw [hq] at hqnot
            exact (hqnot hm).elim
      · have h : unregister_from_activity s n e =
            .error ⟨400, "Student is not signed up for this activity"⟩ := by
          simp [unregister_from_activity, hA, hp, hm]
        exact ⟨fun _ => Or.inr ⟨p, hpmem, hpe, hm⟩, fun _ => h⟩
  · intro err herr
    simp [applyOp, herr]

/-- Witness for C5: unregistering an email with no participant row from
`storeB`'s activity. -/
theorem unregister_conflict_spec_witness :
    (unregister_from_activity storeB "Chess Club" "nobody@mergington.edu" =
        .error ⟨400, "Student is not signed up for this activity"⟩ ↔
      (¬∃ p ∈ storeB.participants, p.email = "nobody@mergington.edu") ∨
        ∃ p ∈ storeB.participants, p.email = "nobody@mergington.edu" ∧
          (⟨1, p.id⟩ : ActivityParticipant) ∉ storeB.activity_participants) ∧
    (∀ err, unregister_from_activity storeB "Chess Club" "nobody@mergington.edu" = .error err →
      applyOp storeB (.unregister "Chess Club" "nobody@mergington.edu") = storeB) :=
  unregister_conflict_spec storeB "Chess Club" "nobody@mergington.edu"
    ⟨1, "Chess Club", "Chess", "Fridays", 12⟩ (by decide) (by decide)

/-- **C6**: when the activity exists and the participant with that email
holds a link to it, unregister succeeds with the message
"Unregistered {email} from {activity_name}", removes exactly that link
row (the pair is gone, every other link row is untouched, and the table
shrinks by one), keeps the participant row, and leaves the activity and
participant tables unchanged. -/
theorem unregister_success_spec (s : Store) (n e : String) (a : Activity) (p : Participant)
    (hwf : WF s) (hA : findActivity s n = some a)
    (hp : findParticipantByEmail s e = some p)
    (hm : (⟨a.id, p.id⟩ : ActivityParticipant) ∈ s.activity_participants) :
    ∃ s', unregister_from_activity s n e =
        .ok ("Unregistered " ++ e ++ " from " ++ n, s') ∧
      s'.activities = s.activities ∧
      s'.participants = s.participants ∧
      p ∈ s'.participants ∧
      (⟨a.id, p.id⟩ : ActivityParticipant) ∉ s'.activity_participants ∧
      (∀ m : ActivityParticipant, m ≠ ⟨a.id, p.id⟩ →
        (m ∈ s'.activity_participants ↔ m ∈ s.activity_participants)) ∧
      s'.activity_participants.length + 1 = s.activity_participants.length := by
  have h5 : s.activity_participants.Nodup := hwf.2.2.2.2.1
  refine ⟨{ s with activity_participants := removeLink ⟨a.id, p.id⟩ s.activity_participants },
    ?_, rfl, rfl, (findParticipantByEmail_spec hp).1, ?_, ?_, removeLink_length hm⟩
  · simp [unregister_from_activity, hA, hp, hm]
  · intro hmem
    exact ((mem_removeLink h5 _).mp hmem).2 rfl
  · intro m hne
    rw [mem_removeLink h5 m]
    exact ⟨fun h => h.1, fun h => ⟨h, hne⟩⟩

/-- Witness for C6: unregistering the seeded participant of `storeB`. -/
theorem unregister_success_spec_witness :
    ∃ s', unregister_from_activity storeB "Chess Club" "michael@mergington.edu" =
        .ok ("Unregistered " ++ "michael@mergington.edu" ++ " from " ++ "Chess Club", s') ∧
      s'.activities = storeB.activities ∧
      s'.participants = storeB.participants ∧
      (⟨1, "michael@mergington.edu"⟩ : Participant) ∈ s'.participants ∧
      (⟨1, 1⟩ : ActivityParticipant) ∉ s'.activity_participants ∧
      (∀ m : ActivityParticipant, m ≠ ⟨1, 1⟩ →
        (m ∈ s'.activity_participants ↔ m ∈ storeB.activity_participants)) ∧
      s'.activity_participants.length + 1 = storeB.activity_participants.length :=
  unregister_success_spec storeB "Chess Club" "michael@mergington.edu"
    ⟨1, "Chess Club", "Chess", "Fridays", 12⟩ ⟨1, "michael@mergington.edu"⟩
    (by decide) (by decide) (by decide) (by decide)

/-- **C9**: capacity is never enforced: with the activity found and the
email not yet in its collection, signup succeeds even when the collection
already has at least `max_participants` members. -/
theorem signup_capacity_not_enforced (s : Store) (n e : String) (a : Activity)
    (hA : findActivity s n = some a)
    (hne : e ∉ activityParticipantEmails s a.id)
    (_hcap : a.max_participants ≤ (activityParticipantEmails s a.id).length) :
    ∃ s', signup_for_activity s n e =
      .ok ("Signed up " ++ e ++ " for " ++ n, s') := by
  have hchk := any_beq_false_of_not_mem hne
  cases hp : findParticipantByEmail s e with
  | some p =>
    exact ⟨{ s with activity_participants := s.activity_participants ++ [⟨a.id, p.id⟩] },
      by simp [signup_for_activity, hA, hchk, hp]⟩
  | none =>
    exact ⟨{ s with
        participants := s.participants ++ [⟨s.next_participant_id, e⟩],
        next_participant_id := s.next_participant_id + 1,
        activity_participants := s.activity_participants ++ [⟨a.id, s.next_participant_id⟩] },
      by simp [signup_for_activity, hA, hchk, hp]⟩

/-- Witness for C9: `storeA`'s activity has capacity 0, yet signup
succeeds. -/
theorem signup_capacity_not_enforced_witness :
    ∃ s', signup_for_activity storeA "Chess Club" "kim@mergington.edu" =
      .ok ("Signed up " ++ "kim@mergington.edu" ++ " for " ++ "Chess Club", s') :=
  signup_capacity_not_enforced storeA "Chess Club" "kim@mergington.edu"
    ⟨1, "Chess Club", "Chess", "Fridays", 0⟩ (by decide) (by decide) (by decide)

/-- **C1**: when the activity exists and the email is not yet in its
collection, signup succeeds (the `.ok` case is HTTP 200) with the message
"Signed up {email} for {activity_name}"; it reuses the participant row
with that email when one exists (adding only one link row) and otherwise
creates exactly one fresh participant row with that email, and afterwards
the activity's collection contains the email exactly once. -/
theorem signup_success_spec (s : Store) (n e : String) (a : Activity)
    (hwf : WF s) (hA : findActivity s n = some a)
    (hne : e ∉ activityParticipantEmails s a.id) :
    ∃ s', signup_for_activity s n e =
        .ok ("Signed up " ++ e ++ " for " ++ n, s') ∧
      (∀ p, findParticipantByEmail s e = some p →
        s'.participants = s.participants ∧
        s'.activity_participants = s.activity_participants ++ [⟨a.id, p.id⟩]) ∧
      (findParticipantByEmail s e = none →
        ∃ p : Participant, p.email = e ∧ p ∉ s.participants ∧
          s'.participants = s.participants ++ [p] ∧
          s'.activity_participants = s.activity_participants ++ [⟨a.id, p.id⟩]) ∧
      (activityParticipantEmails s' a.id).count e = 1 := by
  have hchk := any_beq_false_of_not_mem hne
  have haidmem := (findActivity_spec hA).1
  cases hp : findParticipantByEmail s e with
  | some p =>
    obtain ⟨hpmem, hpe⟩ := findParticipantByEmail_spec hp
    have hnew : (⟨a.id, p.id⟩ : ActivityParticipant) ∉ s.activity_participants :=
      fun hmem => hne ((mem_activityParticipantEmails hwf.2.2.1).mpr ⟨p, hpmem, hpe, hmem⟩)
    have hwf' := wf_addLink hwf haidmem hpmem hnew
    refine ⟨{ s with activity_participants := s.activity_participants ++ [⟨a.id, p.id⟩] },
      ?_, ?_, ?_, ?_⟩
    · simp [signup_for_activity, hA, hchk, hp]
    · intro q hq
      injection hq with hq
      subst hq
      exact ⟨rfl, rfl⟩
    · intro h0
      exact Option.noConfusion h0
    · apply nodup_count_eq_one (activityParticipantEmails_nodup hwf' a.id)
      apply (mem_activityParticipantEmails hwf'.2.2.1).mpr
      exact ⟨p, hpmem, hpe, List.mem_append_right _ (List.mem_singleton_self _)⟩
  | none =>
    have hwf' := wf_addParticipantLink hwf haidmem hp
    refine ⟨{ s with
        participants := s.participants ++ [⟨s.next_participant_id, e⟩],
        next_participant_id := s.next_participant_id + 1,
        activity_participants := s.activity_participants ++ [⟨a.id, s.next_participant_id⟩] },
      ?_, ?_, ?_, ?_⟩
    · simp [signup_for_activity, hA, hchk, hp]
    · intro q hq
      exact Option.noConfusion hq
    · intro _
      refine ⟨⟨s.next_participant_id, e⟩, rfl, ?_, rfl, rfl⟩
      intro hmem
      exact Nat.lt_irrefl _ (hwf.2.2.2.2.2.2.2 _ hmem)
    · apply nodup_count_eq_one (activityParticipantEmails_nodup hwf' a.id)
      apply (mem_activityParticipantEmails hwf'.2.2.1).mpr
      exact ⟨⟨s.next_participant_id, e⟩,
        List.mem_append_right _ (List.mem_singleton_self _), rfl,
        List.mem_append_right _ (List.mem_singleton_self _)⟩

/-- Witness for C1: signing a fresh email up for `storeA`'s activity. -/
theorem signup_success_spec_witness :
    WF storeA ∧
    ∃ s', signup_for_activity storeA "Chess Club" "kim@mergington.edu" =
        .ok ("Signed up " ++ "kim@mergington.edu" ++ " for " ++ "Chess Club", s') ∧
      (∀ p, findParticipantByEmail storeA "kim@mergington.edu" = some p →
        s'.participants = storeA.participants ∧
        s'.activity_participants = storeA.activity_participants ++ [⟨1, p.id⟩]) ∧
      (findParticipantByEmail storeA "kim@mergington.edu" = none →
        ∃ p : Participant, p.email = "kim@mergington.edu" ∧ p ∉ storeA.participants ∧
          s'.participants = storeA.participants ++ [p] ∧
          s'.activity_participants = storeA.activity_participants ++ [⟨1, p.id⟩]) ∧
      (activityParticipantEmails s' 1).count "kim@mergington.edu" = 1 :=
  ⟨by decide, signup_success_spec storeA "Chess Club" "kim@mergington.edu"
    ⟨1, "Chess Club", "Chess", "Fridays", 0⟩ (by decide) (by decide) (by decide)⟩

/-- **C8**: the seeding routine is idempotent — a no-op on any store that
already has an activity row, and hence a fixed point after one run — and
on an empty store it creates the nine starter activities in dataset
order, with one participant row per seed email (all eighteen are
distinct, so each is created) and one link row each. -/
theorem seed_initial_data_spec :
    (∀ s : Store, s.activities ≠ [] → seed_initial_data s = s) ∧
    (∀ s : Store, seed_initial_data (seed_initial_data s) = seed_initial_data s) ∧
    (seed_initial_data emptyStore).activities.map Activity.name =
      INITIAL_ACTIVITIES.map SeedActivity.name ∧
    (seed_initial_data emptyStore).activities.length = 9 ∧
    (seed_initial_data emptyStore).participants.length = 18 ∧
    (seed_initial_data emptyStore).activity_participants.length = 18 ∧
    (seed_initial_data emptyStore).participants.map Participant.email =
      INITIAL_ACTIVITIES.flatMap SeedActivity.participants := by
  refine ⟨fun s h => seed_initial_data_noop h, ?_,
    by decide, by decide, by decide, by decide, by decide⟩
  intro s
  by_cases h : s.activities = []
  · apply seed_initial_data_noop
    intro hnil
    have hcard := seed_initial_data_card h
    rw [hnil] at hcard
    simp at hcard
  · rw [seed_initial_data_noop h]
    exact seed_initial_data_noop h

/-- Witness for C8: seeding is a fixed point after one run from the empty
store, and a no-op on the non-empty `storeB`. -/
theorem seed_initial_data_spec_witness :
    seed_initial_data (seed_initial_data emptyStore) = seed_initial_data emptyStore ∧
    seed_initial_data storeB = storeB :=
  ⟨seed_initial_data_spec.2.1 emptyStore,
   seed_initial_data_spec.1 storeB (by decide)⟩

/-- **C4**: `GET /activities` is total and read-only in the model (it
returns a value and no store); on an empty activity table it returns the
empty mapping, its keys are in ascending lexicographic order of activity
name, every stored activity appears under its name with its
`activity_to_dict` value (description, schedule, max_participants and
participant emails) and nothing else appears, and each activity's served
participant list holds exactly the emails whose participant row is linked
to it. -/
theorem get_activities_spec (s : Store) (hwf : WF s) :
    (s.activities = [] → get_activities s = []) ∧
    List.Sorted (fun x y => strLe x y = true) ((get_activities s).map Prod.fst) ∧
    (∀ a ∈ s.activities, (a.name, activity_to_dict s a) ∈ get_activities s) ∧
    (∀ x ∈ get_activities s, ∃ a ∈ s.activities, x = (a.name, activity_to_dict s a)) ∧
    (∀ a ∈ s.activities, ∀ e,
      e ∈ (activity_to_dict s a).participants ↔
        ∃ p ∈ s.participants, p.email = e ∧
          (⟨a.id, p.id⟩ : ActivityParticipant) ∈ s.activity_participants) := by
  refine ⟨?_, ?_, ?_, ?_, ?_⟩
  · intro h
    unfold get_activities
    rw [h]
    rfl
  · unfold get_activities
    rw [List.map_map]
    haveI : IsTotal Activity nameLe := ⟨fun a b => strLeB_total a.name.data b.name.data⟩
    haveI : IsTrans Activity nameLe := ⟨fun a b c => strLeB_trans a.name.data b.name.data c.name.data⟩
    exact List.Pairwise.map _ (fun a b h => h) (List.sorted_insertionSort nameLe s.activities)
  · intro a ha
    exact List.mem_map.mpr
      ⟨a, (List.perm_insertionSort nameLe s.activities).mem_iff.mpr ha, rfl⟩
  · intro x hx
    obtain ⟨a, ha, rfl⟩ := List.mem_map.mp hx
    exact ⟨a, (List.perm_insertionSort nameLe s.activities).mem_iff.mp ha, rfl⟩
  · intro a _ e
    exact mem_activityParticipantEmails hwf.2.2.1

/-- Witness for C4 on the concrete `storeB`. -/
theorem get_activities_spec_witness :
    (storeB.activities = [] → get_activities storeB = []) ∧
    List.Sorted (fun x y => strLe x y = true) ((get_activities storeB).map Prod.fst) ∧
    (∀ a ∈ storeB.activities, (a.name, activity_to_dict storeB a) ∈ get_activities storeB) ∧
    (∀ x ∈ get_activities storeB,
      ∃ a ∈ storeB.activities, x = (a.name, activity_to_dict storeB a)) ∧
    (∀ a ∈ storeB.activities, ∀ e,
      e ∈ (activity_to_dict storeB a).participants ↔
        ∃ p ∈ storeB.participants, p.email = e ∧
          (⟨a.id, p.id⟩ : ActivityParticipant) ∈ storeB.activity_participants) :=
  get_activities_spec storeB (by decide)

/-- **C2**: in every store reachable from the empty store or the freshly
seeded store by any sequence of API operations, the link table has no
duplicate (activity, participant) pair; and handling one request from any
well-formed store (as the database guarantees) preserves that
uniqueness. -/
theorem membership_pairs_unique :
    (∀ (s : Store) (op : Op), WF s → (applyOp s op).activity_participants.Nodup) ∧
    ∀ (start : Store) (ops : List Op),
      start = emptyStore ∨ start = seed_initial_data emptyStore →
      (runOps start ops).activity_participants.Nodup := by
  constructor
  · intro s op hwf
    exact (wf_applyOp hwf op).2.2.2.2.1
  · rintro start ops (rfl | rfl)
    · exact (wf_runOps ops emptyStore (by decide)).2.2.2.2.1
    · exact (wf_runOps ops (seed_initial_data emptyStore) (by decide)).2.2.2.2.1

/-- Witness for C2: concrete request sequences from a store, from the
empty store, and from the freshly seeded store. -/
theorem membership_pairs_unique_witness :
    (applyOp storeB (Op.signup "Chess Club" "kim@mergington.edu")).activity_participants.Nodup ∧
    (runOps emptyStore [Op.signup "Chess Club" "kim@mergington.edu"]).activity_participants.Nodup ∧
    (runOps (seed_initial_data emptyStore)
      [Op.signup "Chess Club" "kim@mergington.edu",
       Op.signup "Chess Club" "kim@mergington.edu",
       Op.unregister "Chess Club" "michael@mergington.edu"]).activity_participants.Nodup :=
  ⟨membership_pairs_unique.1 storeB (Op.signup "Chess Club" "kim@mergington.edu") (by decide),
   membership_pairs_unique.2 emptyStore
     [Op.signup "Chess Club" "kim@mergington.edu"] (Or.inl rfl),
   membership_pairs_unique.2 (seed_initial_data emptyStore)
     [Op.signup "Chess Club" "kim@mergington.edu",
      Op.signup "Chess Club" "kim@mergington.edu",
      Op.unregister "Chess Club" "michael@mergington.edu"] (Or.inr rfl)⟩

/-- **C10**: signup and unregister on activity `n` touch only `n`'s link
rows (signup may also append a participant row): the activity table — and
with it every activity's name, description, schedule and
max_participants — is unchanged, and every activity `b` other than `n`
keeps exactly its participant collection, in success and failure cases
alike. -/
theorem mutation_frame_spec (s : Store) (n e : String) (b : Activity)
    (hwf : WF s) (hb : b ∈ s.activities) (hbn : b.name ≠ n) :
    (applyOp s (.signup n e)).activities = s.activities ∧
    (applyOp s (.unregister n e)).activities = s.activities ∧
    activityParticipantEmails (applyOp s (.signup n e)) b.id =
      activityParticipantEmails s b.id ∧
    activityParticipantEmails (applyOp s (.unregister n e)) b.id =
      activityParticipantEmails s b.id := by
  have hsign : (applyOp s (.signup n e)).activities = s.activities ∧
      activityParticipantEmails (applyOp s (.signup n e)) b.id =
        activityParticipantEmails s b.id := by
    cases h : signup_for_activity s n e with
    | error err =>
      have happ : applyOp s (.signup n e) = s := by simp [applyOp, h]
      rw [happ]
      exact ⟨rfl, rfl⟩
    | ok r =>
      obtain ⟨msg, s'⟩ := r
      have happ : applyOp s (.signup n e) = s' := by simp [applyOp, h]
      rw [happ]
      obtain ⟨a, hA, hne, hmsg, hcase⟩ := signup_ok_shape h
      obtain ⟨hamem, hname⟩ := findActivity_spec hA
      have haid : a.id ≠ b.id := by
        intro heq
        have hab : a = b := List.inj_on_of_nodup_map hwf.1 hamem hb heq
        exact hbn (hab ▸ hname)
      rcases hcase with ⟨p, hp, rfl⟩ | ⟨hp, rfl⟩
      · refine ⟨rfl, activityParticipantEmails_congr ?_ (fun m _ => rfl)⟩
        show (s.activity_participants ++ [(⟨a.id, p.id⟩ : ActivityParticipant)]).filter
            (fun m => m.activity_id == b.id) =
          s.activity_participants.filter (fun m => m.activity_id == b.id)
        rw [List.filter_append]
        have hone : List.filter (fun m => m.activity_id == b.id)
            [(⟨a.id, p.id⟩ : ActivityParticipant)] = [] := by
          simp [beq_eq_false_iff_ne.mpr haid]
        rw [hone, List.append_nil]
      · refine ⟨rfl, activityParticipantEmails_congr ?_ ?_⟩
        · show (s.activity_participants ++
              [(⟨a.id, s.next_participant_id⟩ : ActivityParticipant)]).filter
              (fun m => m.activity_id == b.id) =
            s.activity_participants.filter (fun m => m.activity_id == b.id)
          rw [List.filter_append]
          have hone : List.filter (fun m => m.activity_id == b.id)
              [(⟨a.id, s.next_participant_id⟩ : ActivityParticipant)] = [] := by
            simp [beq_eq_false_iff_ne.mpr haid]
          rw [hone, List.append_nil]
        · intro m hm
          obtain ⟨hmmem, _⟩ := List.mem_filter.mp hm
          obtain ⟨_, p', hp'mem, hpid⟩ := hwf.2.2.2.2.2.1 m hmmem
          have hlt : m.participant_id < s.next_participant_id :=
            hpid ▸ hwf.2.2.2.2.2.2.2 p' hp'mem
          show (s.participants ++ [(⟨s.next_participant_id, e⟩ : Participant)]).find?
              (fun q => q.id == m.participant_id) =
            s.participants.find? (fun q => q.id == m.participant_id)
          refine find?_append_not _ ?_
          simp only [beq_eq_false_iff_ne]
          omega
  have hunreg : (applyOp s (.unregister n e)).activities = s.activities ∧
      activityParticipantEmails (applyOp s (.unregister n e)) b.id =
        activityParticipantEmails s b.id := by
    cases h : unregister_from_activity s n e with
    | error err =>
      have happ : applyOp s (.unregister n e) = s := by simp [applyOp, h]
      rw [happ]
      exact ⟨rfl, rfl⟩
    | ok r =>
      obtain ⟨msg, s'⟩ := r
      have happ : applyOp s (.unregister n e) = s' := by simp [applyOp, h]
      rw [happ]
      obtain ⟨a, p, hA, hp, hm, hmsg, rfl⟩ := unregister_ok_shape h
      obtain ⟨hamem, hname⟩ := findActivity_spec hA
      have haid : a.id ≠ b.id := by
        intro heq
        have hab : a = b := List.inj_on_of_nodup_map hwf.1 hamem hb heq
        exact hbn (hab ▸ hname)
      refine ⟨rfl, activityParticipantEmails_congr ?_ (fun m _ => rfl)⟩
      show (removeLink ⟨a.id, p.id⟩ s.activity_participants).filter
          (fun m => m.activity_id == b.id) =
        s.activity_participants.filter (fun m => m.activity_id == b.id)
      exact removeLink_filter _ (by simp [beq_eq_false_iff_ne.mpr haid])
  exact ⟨hsign.1, hunreg.1, hsign.2, hunreg.2⟩

/-- Witness for C10: mutations on "Chess Club" in `storeC` leave
"Art Club" (id 2) untouched. -/
theorem mutation_frame_spec_witness :
    (applyOp storeC (.signup "Chess Club" "kim@mergington.edu")).activities =
      storeC.activities ∧
    (applyOp storeC (.unregister "Chess Club" "kim@mergington.edu")).activities =
      storeC.activities ∧
    activityParticipantEmails
        (applyOp storeC (.signup "Chess Club" "kim@mergington.edu")) 2 =
      activityParticipantEmails storeC 2 ∧
    activityParticipantEmails
        (applyOp storeC (.unregister "Chess Club" "kim@mergington.edu")) 2 =
      activityParticipantEmails storeC 2 :=
  mutation_frame_spec storeC "Chess Club" "kim@mergington.edu"
    ⟨2, "Art Club", "Art", "Thursdays", 15⟩ (by decide) (by decide) (by decide)
